import Mathlib

/-!
Verification of the goparse front end (tokenizer, AST nodes, renderer).

The development shallowly embeds the Go sources:

* internal/lexer/lexer.go — the hand-rolled state-machine tokenizer
  (function Lexer.Next), embedded as `lexNext` below.  Characters are
  modelled as their Unicode codepoints (Go runes), i.e. as `Nat`, and the
  input stream as a `List Nat`.  Go maps `map[rune]bool` (which in the
  source only ever store the value `true`) are modelled as the list of
  their keys (`List Nat`), with `memb`/`mapInsert` modelling lookup and
  `m[k] = true` insertion.  Panics are modelled as `Except.error`.
  The package-level mutable map `uselessChars` is threaded through
  explicitly as part of `LexState`; the Go assignment
  `rangeChars = uselessChars` aliases that map, which is modelled by
  seeding the in-flight range set from the state and writing the final
  range set back into the state when an inverted range token is produced.
  (Error paths abort the call, as Go panics do; state after a panic is not
  observed by any caller in the sources.)

* internal/parser/nodes.go — the AST node types (namespace `Nodes`).

* the draft renderer file (src/unnamed/part_002) — pretty printing of
  Terminal / ListItem / ExpressionItem / Expression (namespace `Pretty`).

Text is uniformly `List Nat` (codepoints); `codes` converts a literal.
-/

set_option maxHeartbeats 1000000

namespace GoParse

/-- Conversion of a Lean string literal to the codepoint list used to model Go strings. -/
def codes (s : String) : List Nat :=
  s.toList.map Char.toNat

/-- Membership test in a key list, modelling lookup in a Go map[rune]bool that only stores true. -/
def memb : List Nat → Nat → Bool
  | [], _ => false
  | x :: xs, k => if x = k then true else memb xs k

/-- Insertion modelling the Go map write m[k] = true (idempotent on present keys). -/
def mapInsert (m : List Nat) (k : Nat) : List Nat :=
  if memb m k then m else m ++ [k]

/-- Iteration core of the Go loop for r := lo; r <= hi; r++ \x7b rangeChars[r] = true \x7d,
with the number of remaining iterations as first argument. -/
def setRangeAux : Nat → List Nat → Nat → List Nat
  | 0, m, _ => m
  | fuel + 1, m, lo => setRangeAux fuel (mapInsert m lo) (lo + 1)

/-- Addition of the inclusive codepoint interval lo..hi to a range map, as the Go for loop does. -/
def setRange (m : List Nat) (lo hi : Nat) : List Nat :=
  setRangeAux (hi + 1 - lo) m lo

/-- Lexical token types, mirroring the LexType constants of internal/lexer/lexer.go.
The Go constant named String is rendered StringLit here. -/
inductive LexType where
  | InvalidLexType
  | Comment
  | Identifier
  | StringLit
  | CharacterRange
  | Repetition
  | OptionAST
  | OptionEOL
  | OptionIndent
  | OptionOutdent
  | OptionPreEOL
  | OptionPreIndent
  | OptionPreOutdent
  | Hat
  | OpenParens
  | CloseParens
  | Bar
  | Comma
  | Equals
  | DoubleEquals
  | SemiColon
  | EOF
deriving DecidableEq, Repr

/-- Lexical errors, mirroring the Err... message constants of internal/lexer/lexer.go.
The Go errors are bare message strings; they carry no position information. -/
inductive LexErr where
  | UnexpectedEOF
  | InvalidComment
  | UnexpectedChar
  | InvalidStringEscape
  | InvalidCharacterRangeEscape
  | CharacterRangeEmpty
  | CharacterRangeOutOfOrder
  | RepetitionForm
  | InvalidOption
deriving DecidableEq, Repr

/-- Token, mirroring the Token struct of internal/lexer/lexer.go.
charRange is the key list of the Go map; n and m are Go ints. -/
structure Token where
  typ : LexType := .InvalidLexType
  token : List Nat := []
  formattedToken : List Nat := []
  charRangeInverted : Bool := false
  charRange : List Nat := []
  n : Int := 0
  m : Int := 0
deriving DecidableEq, Repr

/-- Mutable state surrounding Lexer.Next: the package-level uselessChars map
(mutable in Go, aliased by inverted ranges) and the line counter of the Lexer struct. -/
structure LexState where
  useless : List Nat
  lineNumber : Int
deriving DecidableEq, Repr

/-- Seed content of the package-level uselessChars map: the keys of the Go map
literal in source order (0x00-0x08, 0x0B, 0x0C, 0x0E-0x1F, 0x7F). -/
def uselessChars : List Nat :=
  [0, 1, 2, 3, 4, 5, 6, 7, 8,
   11, 12,
   14, 15, 16, 17, 18, 19, 20, 21, 22, 23, 24, 25, 26, 27, 28, 29, 30, 31,
   127]

/-- Initial lexer state of a fresh process: pristine uselessChars, lineNumber 1. -/
def initLexState : LexState :=
  { useless := uselessChars, lineNumber := 1 }

/-- Escape decoding table of handleEscapes in Lexer.Next: given the character after
a backslash, yields the decoded character and its source text form, or none for an
invalid escape.  isString selects the string escapes (quote chars) versus the
character range escape (closing bracket). -/
def escDecode (isString : Bool) (d : Nat) : Option (Nat × List Nat) :=
  if d = 92 then some (92, [92, 92])          -- backslash
  else if d = 116 then some (9, [92, 116])    -- t
  else if d = 114 then some (13, [92, 114])   -- r
  else if d = 110 then some (10, [92, 110])   -- n
  else if d = 39 then                         -- single quote
    if isString = true then some (39, [92, 39]) else none
  else if d = 34 then                         -- double quote
    if isString = true then some (34, [92, 34]) else none
  else if d = 93 then                         -- closing bracket
    if isString = false then some (93, [92, 93]) else none
  else none

/-- Identifier continuation characters of Lexer.Next: A-Z, a-z, 0-9 and underscore. -/
def isIdentTail (c : Nat) : Bool :=
  decide ((65 ≤ c ∧ c ≤ 90) ∨ (97 ≤ c ∧ c ≤ 122) ∨ (48 ≤ c ∧ c ≤ 57) ∨ c = 95)

/-- Identifier state of Lexer.Next: extend while the next character continues the
identifier, stop and push the terminator back otherwise; EOF mid-token panics. -/
def identLoop (tok ftok : List Nat) : List Nat → Except LexErr (Token × List Nat)
  | [] => .error .UnexpectedEOF
  | c :: rest =>
    if isIdentTail c then identLoop (tok ++ [c]) (ftok ++ [c]) rest
    else .ok ({ typ := .Identifier, token := tok, formattedToken := ftok }, c :: rest)

/-- Comment states of Lexer.Next (commentState 0-3).  State 1 ends the single-line
comment at CR or LF, consuming it; state 3, reached after a star in a multi-line
comment, returns to state 2 on any non-slash, writing a star and that character. -/
def commentLoop (cs : Nat) (tok ftok : List Nat) : List Nat → Except LexErr (Token × List Nat)
  | [] => .error .UnexpectedEOF
  | c :: rest =>
    match cs with
    | 0 =>
      if c = 47 then commentLoop 1 tok ftok rest
      else if c = 42 then commentLoop 2 tok ftok rest
      else .error .InvalidComment
    | 1 =>
      if c = 13 ∨ c = 10 then
        .ok ({ typ := .Comment, token := tok, formattedToken := ftok }, rest)
      else commentLoop 1 (tok ++ [c]) (ftok ++ [c]) rest
    | 2 =>
      if c = 42 then commentLoop 3 tok ftok rest
      else commentLoop 2 (tok ++ [c]) (ftok ++ [c]) rest
    | _ =>
      if c = 47 then
        .ok ({ typ := .Comment, token := tok, formattedToken := ftok }, rest)
      else commentLoop 2 (tok ++ [42, c]) (ftok ++ [42, c]) rest

/-- String state of Lexer.Next: dq selects double quotes; escapes decode via
escDecode, an unescaped matching quote closes the token, EOF mid-token panics. -/
def stringLoop (dq : Bool) (tok ftok : List Nat) : List Nat → Except LexErr (Token × List Nat)
  | [] => .error .UnexpectedEOF
  | c :: rest =>
    if c = 92 then
      match rest with
      | [] => .error .UnexpectedEOF
      | d :: rest2 =>
        match escDecode true d with
        | none => .error .InvalidStringEscape
        | some (ch, tx) => stringLoop dq (tok ++ [ch]) (ftok ++ tx) rest2
    else
      if (dq = true ∧ c = 34) ∨ (dq = false ∧ c = 39) then
        .ok ({ typ := .StringLit, token := tok, formattedToken := ftok ++ [c] }, rest)
      else stringLoop dq (tok ++ [c]) (ftok ++ [c]) rest

/-- Outcome of one character step inside a character range. -/
inductive RangeStep where
  | err (e : LexErr)
  | done (inv : Bool) (chars : List Nat)
  | cont (rs : Nat) (inv : Bool) (rb : Nat) (chars : List Nat)

/-- Single-character dispatch of the CharacterRange states of Lexer.Next
(rangeState 0-3), given the already decoded character ch and its escape flag.
g is the current uselessChars map, seeded into the range on a leading hat
(the Go assignment rangeChars = uselessChars). -/
def rangeDispatch (g : List Nat) (rs : Nat) (inv : Bool) (rb : Nat) (chars : List Nat)
    (ch : Nat) (esc : Bool) : RangeStep :=
  match rs with
  | 0 =>
    if ch = 94 ∧ inv = false then .cont 0 true rb g
    else if ch = 93 ∧ esc = false then
      if inv = true then .done inv chars else .err .CharacterRangeEmpty
    else .cont 1 inv ch chars
  | 1 =>
    if ch = 93 ∧ esc = false then .done inv (mapInsert chars rb)
    else if ch = 45 then .cont 2 inv rb chars
    else .cont 1 inv ch (mapInsert chars rb)
  | 2 =>
    if ch = 93 ∧ esc = false then .done inv (mapInsert (mapInsert chars rb) 45)
    else if rb > ch then .err .CharacterRangeOutOfOrder
    else .cont 3 inv rb (setRange chars rb ch)
  | _ =>
    if ch = 93 ∧ esc = false then .done inv chars
    else .cont 1 inv ch chars

/-- CharacterRange states of Lexer.Next.  The third result component is the
uselessChars map after the token: producing an inverted range writes the final
range set back (rangeChars aliases the package-level map), a plain range leaves
it unchanged. -/
def rangeLoop (g : List Nat) (rs : Nat) (inv : Bool) (rb : Nat) (chars tok ftok : List Nat) :
    List Nat → Except LexErr (Token × List Nat × List Nat)
  | [] => .error .UnexpectedEOF
  | c :: rest =>
    if c = 92 then
      match rest with
      | [] => .error .UnexpectedEOF
      | d :: rest2 =>
        match escDecode false d with
        | none => .error .InvalidCharacterRangeEscape
        | some (ch, tx) =>
          match rangeDispatch g rs inv rb chars ch true with
          | .err e => .error e
          | .done inv2 chars2 =>
            .ok ({ typ := .CharacterRange, token := tok ++ tx, formattedToken := ftok ++ tx,
                   charRangeInverted := inv2, charRange := chars2 }, rest2,
                 if inv2 = true then chars2 else g)
          | .cont rs2 inv2 rb2 chars2 =>
            rangeLoop g rs2 inv2 rb2 chars2 (tok ++ tx) (ftok ++ tx) rest2
    else
      match rangeDispatch g rs inv rb chars c false with
      | .err e => .error e
      | .done inv2 chars2 =>
        .ok ({ typ := .CharacterRange, token := tok ++ [c], formattedToken := ftok ++ [c],
               charRangeInverted := inv2, charRange := chars2 }, rest,
             if inv2 = true then chars2 else g)
      | .cont rs2 inv2 rb2 chars2 =>
        rangeLoop g rs2 inv2 rb2 chars2 (tok ++ [c]) (ftok ++ [c]) rest

/-- Repetition states of Lexer.Next: readM is false while reading N, true while
reading M; N and M start at -1 meaning not yet read.  Faithful to the source:
there is no check that M is at least N. -/
def repLoop (readM : Bool) (n m : Int) (tok ftok : List Nat) :
    List Nat → Except LexErr (Token × List Nat)
  | [] => .error .UnexpectedEOF
  | c :: rest =>
    if readM = false then
      if 48 ≤ c ∧ c ≤ 57 then
        repLoop false (if n = -1 then (c : Int) - 48 else n * 10 + ((c : Int) - 48)) m
          (tok ++ [c]) (ftok ++ [c]) rest
      else if c = 44 then
        repLoop true n m (tok ++ [c]) (ftok ++ [c]) rest
      else if c = 125 then
        if n < 1 then .error .RepetitionForm
        else .ok ({ typ := .Repetition, token := tok ++ [c], formattedToken := ftok ++ [c],
                    n := n, m := n }, rest)
      else .error .RepetitionForm
    else
      if 48 ≤ c ∧ c ≤ 57 then
        repLoop true n (if m = -1 then (c : Int) - 48 else m * 10 + ((c : Int) - 48))
          (tok ++ [c]) (ftok ++ [c]) rest
      else if c = 125 then
        if n = -1 ∧ m = -1 then .error .RepetitionForm
        else if m = 0 then .error .RepetitionForm
        else .ok ({ typ := .Repetition, token := tok ++ [c], formattedToken := ftok ++ [c],
                    n := if n = -1 then 0 else n, m := m }, rest)
      else .error .RepetitionForm

/-- Option spellings of the package-level optionStrings slice. -/
def optionStrings : List (List Nat) :=
  [codes (r":AST"), codes (r":EOL"), codes (r":INDENT"), codes (r":OUTDENT"),
   codes (r":PREEOL"), codes (r":PREINDENT"), codes (r":PREOUTDENT")]

/-- Token type for the i-th entry of optionStrings (LexType(int(OptionAST) + i)). -/
def optionTypeAt : Nat → LexType
  | 0 => .OptionAST
  | 1 => .OptionEOL
  | 2 => .OptionIndent
  | 3 => .OptionOutdent
  | 4 => .OptionPreEOL
  | 5 => .OptionPreIndent
  | 6 => .OptionPreOutdent
  | _ => .InvalidLexType

/-- Option state of Lexer.Next: extend on uppercase letters, then the collected
text must match an entry of optionStrings, with the terminator pushed back. -/
def optionLoop (tok ftok : List Nat) : List Nat → Except LexErr (Token × List Nat)
  | [] => .error .UnexpectedEOF
  | c :: rest =>
    if 65 ≤ c ∧ c ≤ 90 then optionLoop (tok ++ [c]) (ftok ++ [c]) rest
    else
      match optionStrings.findIdx? (fun s => decide (s = tok)) with
      | some i =>
        .ok ({ typ := optionTypeAt i, token := tok, formattedToken := ftok }, c :: rest)
      | none => .error .InvalidOption

/-- Single-character token record for the symbol cases of Lexer.Next. -/
def symTok (typ : LexType) (c : Nat) : Token :=
  { typ := typ, token := [c], formattedToken := [c] }

/-- Attachment of the unchanged lexer state to a loop result. -/
def withSt (st : LexState) (r : Except LexErr (Token × List Nat)) :
    Except LexErr (Token × List Nat × LexState) :=
  match r with
  | .error e => .error e
  | .ok (t, rest) => .ok (t, rest, st)

/-- First-character dispatch of Lexer.Next (the InvalidLexType case), after
whitespace has been skipped. -/
def startToken (st : LexState) (c : Nat) (rest : List Nat) :
    Except LexErr (Token × List Nat × LexState) :=
  if (65 ≤ c ∧ c ≤ 90) ∨ (97 ≤ c ∧ c ≤ 122) then
    withSt st (identLoop [c] [c] rest)
  else if c = 47 then withSt st (commentLoop 0 [] [] rest)
  else if c = 34 then withSt st (stringLoop true [] [34] rest)
  else if c = 39 then withSt st (stringLoop false [] [39] rest)
  else if c = 91 then
    match rangeLoop st.useless 0 false 0 [] [91] [91] rest with
    | .error e => .error e
    | .ok (t, r, g2) => .ok (t, r, { st with useless := g2 })
  else if c = 123 then withSt st (repLoop false (-1) (-1) [123] [123] rest)
  else if c = 63 then
    .ok ({ typ := .Repetition, token := [63], formattedToken := [63], n := 0, m := 1 }, rest, st)
  else if c = 42 then
    .ok ({ typ := .Repetition, token := [42], formattedToken := [42], n := 0, m := -1 }, rest, st)
  else if c = 43 then
    .ok ({ typ := .Repetition, token := [43], formattedToken := [43], n := 1, m := -1 }, rest, st)
  else if c = 58 then withSt st (optionLoop [58] [58] rest)
  else if c = 94 then .ok (symTok .Hat 94, rest, st)
  else if c = 40 then .ok (symTok .OpenParens 40, rest, st)
  else if c = 41 then .ok (symTok .CloseParens 41, rest, st)
  else if c = 124 then .ok (symTok .Bar 124, rest, st)
  else if c = 44 then .ok (symTok .Comma 44, rest, st)
  else if c = 61 then
    match rest with
    | [] => .error .UnexpectedEOF
    | d :: rest2 =>
      if d = 61 then
        .ok ({ typ := .DoubleEquals, token := [61, 61], formattedToken := [61, 61] }, rest2, st)
      else .ok ({ typ := .Equals, token := [61], formattedToken := [61] }, d :: rest2, st)
  else if c = 59 then .ok (symTok .SemiColon 59, rest, st)
  else .error .UnexpectedChar

/-- Main loop of Lexer.Next while still between tokens: skip whitespace with
CRLF-aware line counting (lastCR is the local lastReadCR flag), return an EOF
token at end of input, otherwise dispatch on the first significant character. -/
def lexNextAux (st : LexState) (lastCR : Bool) :
    List Nat → Except LexErr (Token × List Nat × LexState)
  | [] => .ok ({ typ := .EOF, token := [], formattedToken := [] }, [], st)
  | c :: rest =>
    if c = 32 ∨ c = 9 ∨ c = 13 ∨ c = 10 then
      if c = 13 then
        lexNextAux { st with lineNumber := st.lineNumber + 1 } true rest
      else if c = 10 then
        if lastCR = true then lexNextAux st false rest
        else lexNextAux { st with lineNumber := st.lineNumber + 1 } false rest
      else lexNextAux st false rest
    else startToken st c rest

/-- Embedding of Lexer.Next: one call on the remaining input, returning the
token, the input left over (pushed-back characters included), and the state
(uselessChars map, line number) after the call. -/
def lexNext (st : LexState) (input : List Nat) :
    Except LexErr (Token × List Nat × LexState) :=
  lexNextAux st false input

/-- Repeated calls of Lexer.Next until an EOF token, collecting the tokens.
The fuel argument bounds the number of calls; none on lexical error or
exhausted fuel (each non-EOF call consumes input, so input length suffices). -/
def tokenizeAux : Nat → LexState → List Nat → Option (List Token)
  | 0, _, _ => none
  | fuel + 1, st, input =>
    match lexNext st input with
    | .error _ => none
    | .ok (t, rest, st2) =>
      if t.typ = .EOF then some []
      else (tokenizeAux fuel st2 rest).map (fun ts => t :: ts)

/-- Token stream of an input lexed from a fresh process state. -/
def tokenize (input : List Nat) : Option (List Token) :=
  tokenizeAux (input.length + 1) initLexState input

/-- Whitespace characters skipped between tokens by Lexer.Next. -/
def isWS (c : Nat) : Bool :=
  decide (c = 32 ∨ c = 9 ∨ c = 13 ∨ c = 10)

/-- Observation helper: the token produced by one successful Lexer.Next call. -/
def nextTokenOf (st : LexState) (input : List Nat) : Option Token :=
  (lexNext st input).toOption.map (fun r => r.1)

/-- Observation helper: the input remaining after one successful Lexer.Next call. -/
def nextRestOf (st : LexState) (input : List Nat) : Option (List Nat) :=
  (lexNext st input).toOption.map (fun r => r.2.1)

/-- Observation helper: the lexer state after one successful Lexer.Next call. -/
def nextStateOf (st : LexState) (input : List Nat) : Option LexState :=
  (lexNext st input).toOption.map (fun r => r.2.2)

namespace Nodes

/-- SourceNode of internal/parser/nodes.go: holds the original source string. -/
structure SourceNode where
  sourceString : List Nat
deriving DecidableEq, Repr

/-- OfSourceNode constructor of internal/parser/nodes.go. -/
def OfSourceNode (sourceString : List Nat) : SourceNode :=
  { sourceString := sourceString }

/-- String method of SourceNode: returns the original source string unmodified.
This is the verbatim rendering of a node. -/
def verbatim (s : SourceNode) : List Nat :=
  s.sourceString

/-- Terminal of internal/parser/nodes.go: a string or a character range.
theRange is the key list of the Go map[rune]bool. -/
structure Terminal where
  sourceNode : SourceNode
  theString : List Nat := []
  theRange : List Nat := []
deriving DecidableEq, Repr

/-- OfTerminalString constructor of internal/parser/nodes.go. -/
def OfTerminalString (sourceString terminalString : List Nat) : Terminal :=
  { sourceNode := OfSourceNode sourceString, theString := terminalString }

/-- OfTerminalRange constructor of internal/parser/nodes.go. -/
def OfTerminalRange (sourceString : List Nat) (theRange : List Nat) : Terminal :=
  { sourceNode := OfSourceNode sourceString, theRange := theRange }

/-- IsString method of Terminal: true iff the stored string is nonempty. -/
def IsString (t : Terminal) : Bool :=
  decide (0 < t.theString.length)

/-- IsRange method of Terminal: true iff the stored range map is nonempty. -/
def IsRange (t : Terminal) : Bool :=
  decide (0 < t.theRange.length)

end Nodes

/-- Modelled from the spec: the recursive-descent parser is absent from the
source tree (internal/parser/parser.go declares only the Parser struct, and the
draft parser file is commented out), so parseTerminal models the spec, section
4.2 step 5 and section 4.3: a Terminal is one or more adjacent String or
CharacterRange tokens, and the parser stores the exact consumed source slice as
the sourceText of the node.  The token stream itself comes from the embedded
lexer; the Terminal value is built by the constructors of
internal/parser/nodes.go. -/
def parseTerminal (s : List Nat) : Option Nodes.Terminal :=
  match tokenize s with
  | none => none
  | some toks =>
    if toks ≠ [] ∧ toks.all (fun t => t.typ = .StringLit) then
      some (Nodes.OfTerminalString s (toks.map Token.token).flatten)
    else
      match toks with
      | [t] =>
        if t.typ = .CharacterRange then some (Nodes.OfTerminalRange s t.charRange)
        else none
      | _ => none

namespace Pretty

/-- Terminal of the draft renderer (src/unnamed/part_002, second file): a string
or a character range, without a lexical-source field. -/
structure Terminal where
  theString : List Nat := []
  theRange : List Nat := []
deriving DecidableEq, Repr

/-- Escape of one character under the Go format verb %q, on the ASCII subset
exercised here: backslash, double quote and the characters tab, LF and CR
receive backslash escapes, every other printable ASCII character stands for
itself. -/
def goQuoteChar (c : Nat) : List Nat :=
  if c = 34 then [92, 34]
  else if c = 92 then [92, 92]
  else if c = 9 then [92, 116]
  else if c = 10 then [92, 110]
  else if c = 13 then [92, 114]
  else [c]

/-- Model of fmt.Sprintf with verb %q on the printable ASCII subset used in this
development: the escaped text in double quotes. -/
def goQuote (s : List Nat) : List Nat :=
  34 :: (s.map goQuoteChar).flatten ++ [34]

/-- String method of the draft Terminal: %q of the string for string terminals;
for range terminals the draft never assigns the result variable, so the method
returns the empty string. -/
def Terminal.render (t : Terminal) : List Nat :=
  if 0 < t.theString.length then goQuote t.theString else []

/-- ListItem of the draft renderer: rule name or terminal plus options. -/
structure ListItem where
  ruleName : List Nat := []
  terminal : Terminal := {}
  options : List LexType := []
deriving DecidableEq, Repr

/-- Canonical option spellings of the draft lexTypeStrings map; absent keys give
the empty string, as a Go map lookup does. -/
def lexTypeStr (t : LexType) : List Nat :=
  match t with
  | .OptionAST => codes (r":AST")
  | .OptionEOL => codes (r":EOL")
  | .OptionIndent => codes (r":INDENT")
  | .OptionOutdent => codes (r":OUTDENT")
  | _ => []

/-- String method of the draft ListItem: rule name (when nonempty), then the
terminal rendering (empty for the zero Terminal), then the options with no
separating spaces. -/
def ListItem.render (itm : ListItem) : List Nat :=
  itm.ruleName ++ itm.terminal.render ++ (itm.options.map lexTypeStr).flatten

/-- ExpressionItem of the draft renderer: list items with repetition bounds. -/
structure ExpressionItem where
  list : List ListItem := []
  n : Int := 0
  m : Int := 0
deriving DecidableEq, Repr

/-- Decimal digit string of a natural number (strconv.Itoa core). -/
def natDigits (n : Nat) : List Nat :=
  (Nat.toDigits 10 n).map Char.toNat

/-- Model of strconv.Itoa on Go int. -/
def itoa (i : Int) : List Nat :=
  if i < 0 then 45 :: natDigits i.natAbs else natDigits i.toNat

/-- Repetition suffix of the draft ExpressionItem.String switch: the shortest
equivalent form; a combination matching no case appends nothing. -/
def repSuffix (n m : Int) : List Nat :=
  if n = 0 ∧ m = 1 then [63]
  else if n = 0 ∧ m = -1 then [42]
  else if n = 1 ∧ m = -1 then [43]
  else if 0 < n ∧ m = n then [123] ++ itoa n ++ [125]
  else if 0 < n ∧ m = -1 then [123] ++ itoa n ++ [44, 125]
  else if n = 0 ∧ 0 < m then [123, 44] ++ itoa m ++ [125]
  else if 0 < n ∧ 0 < m then [123] ++ itoa n ++ [44] ++ itoa m ++ [125]
  else []

/-- Space-separated join of rendered list items. -/
def joinSpace : List (List Nat) → List Nat
  | [] => []
  | s :: ss => ss.foldl (fun acc t => acc ++ [32] ++ t) s

/-- String method of the draft ExpressionItem: space-separated items, wrapped in
parentheses with the repetition suffix unless n = m = 1. -/
def ExpressionItem.render (itm : ExpressionItem) : List Nat :=
  let items := joinSpace (itm.list.map ListItem.render)
  if itm.n = 1 ∧ itm.m = 1 then items
  else 40 :: items ++ [41] ++ repSuffix itm.n itm.m

/-- Expression of the draft renderer: ordered alternatives. -/
structure Expression where
  items : List ExpressionItem := []
deriving DecidableEq, Repr

/-- Same-line separator of Expression.String. -/
def sameLineSeparator : List Nat :=
  [32, 124, 32]

/-- Next-line separator of Expression.String: newline, four spaces, bar, space. -/
def nextLineSeparator : List Nat :=
  [10, 32, 32, 32, 32, 124, 32]

/-- Replacement core of strings.ReplaceAll: replace every non-overlapping
occurrence of pat (leftmost first) by rep, with fuel bounding the scan. -/
def replaceAllAux (pat rep : List Nat) : Nat → List Nat → List Nat
  | 0, s => s
  | fuel + 1, s =>
    match s with
    | [] => []
    | c :: rest =>
      if pat.isPrefixOf s then rep ++ replaceAllAux pat rep fuel (s.drop pat.length)
      else c :: replaceAllAux pat rep fuel rest

/-- Model of strings.ReplaceAll for a nonempty pattern. -/
def replaceAll (s pat rep : List Nat) : List Nat :=
  replaceAllAux pat rep s.length s

/-- Loop body of the draft Expression.String over the remaining rendered items:
while on one line, write the separator, and if the accumulated length has
reached 80 replace every occurrence of the same-line separator in the
accumulated text by the next-line separator and switch modes for good. -/
def exprLoop (acc : List Nat) (sameLine : Bool) : List (List Nat) → List Nat
  | [] => acc
  | s :: ss =>
    if sameLine = true then
      let acc2 := acc ++ sameLineSeparator
      if 80 ≤ acc2.length then
        exprLoop (replaceAll acc2 sameLineSeparator nextLineSeparator ++ s) false ss
      else exprLoop (acc2 ++ s) true ss
    else exprLoop (acc ++ nextLineSeparator ++ s) false ss

/-- String method of the draft Expression: the first rendered item, then the
separator-and-length loop over the remaining items. -/
def Expression.render (e : Expression) : List Nat :=
  match e.items.map ExpressionItem.render with
  | [] => []
  | s :: ss => exprLoop s true ss

/-- Expression alternative holding a single rule-name ListItem with default
bounds n = m = 1; it renders as the bare rule name. -/
def nameItem (s : List Nat) : ExpressionItem :=
  { list := [{ ruleName := s }], n := 1, m := 1 }

/-- Expression alternative holding a single string-terminal ListItem with
default bounds n = m = 1; it renders as the %q quotation of the string. -/
def strTermItem (s : List Nat) : ExpressionItem :=
  { list := [{ terminal := { theString := s } }], n := 1, m := 1 }

end Pretty

/-! ## Auxiliary lemmas about the map model -/

theorem memb_eq_true_iff {m : List Nat} {k : Nat} : memb m k = true ↔ k ∈ m := by
  induction m with
  | nil => simp [memb]
  | cons x xs ih =>
    by_cases h : x = k
    · simp [memb, h]
    · simp only [memb, if_neg h, ih, List.mem_cons]
      constructor
      · exact fun hk => Or.inr hk
      · rintro (rfl | hk)
        · exact absurd rfl h
        · exact hk

theorem memb_append {a b : List Nat} {k : Nat} :
    memb (a ++ b) k = (memb a k || memb b k) := by
  induction a with
  | nil => simp [memb]
  | cons x xs ih =>
    by_cases h : x = k
    · simp [memb, h]
    · simp [memb, if_neg h, ih]

theorem mapInsert_memb {m : List Nat} {j k : Nat} :
    memb (mapInsert m j) k = (memb m k || decide (j = k)) := by
  unfold mapInsert
  by_cases hj : memb m j
  · rw [if_pos hj]
    by_cases hk : j = k
    · subst hk
      simp [hj]
    · simp [hk]
  · rw [if_neg hj, memb_append]
    simp [memb]

theorem setRangeAux_memb :
    ∀ (f : Nat) (m : List Nat) (lo k : Nat),
      memb (setRangeAux f m lo) k = (memb m k || decide (lo ≤ k ∧ k < lo + f)) := by
  intro f
  induction f with
  | zero =>
    intro m lo k
    have : ¬(lo ≤ k ∧ k < lo + 0) := by omega
    simp [setRangeAux, this]
  | succ f ih =>
    intro m lo k
    rw [setRangeAux, ih, mapInsert_memb]
    cases h : memb m k
    · simp only [Bool.false_or]
      rw [← Bool.decide_or]
      exact decide_eq_decide.mpr (by omega)
    · simp

theorem setRange_memb {m : List Nat} {lo hi k : Nat} :
    memb (setRange m lo hi) k = (memb m k || decide (lo ≤ k ∧ k ≤ hi)) := by
  rw [setRange, setRangeAux_memb]
  cases h : memb m k
  · simp only [Bool.false_or]
    exact decide_eq_decide.mpr (by omega)
  · simp

/-! ## Claim theorems -/

/-- C1: refutation of purity across inputs, evaluated on the failing inputs.
Lexing the inverted range token for the input with hat-A writes the member 65
into the package-level uselessChars map; lexing the hat-B input from the
resulting process state therefore yields a member set containing 65, while
lexing the same hat-B input in a fresh process does not. -/
theorem inverted_range_global_pollution :
    ((nextStateOf initLexState (codes (r"[^A]"))).bind
        (fun st => (nextTokenOf st (codes (r"[^B]"))).map (fun t => memb t.charRange 65)))
      = some true
    ∧ (nextTokenOf initLexState (codes (r"[^B]"))).map (fun t => memb t.charRange 65)
      = some false := by
  constructor
  · decide
  · decide

/-- C2: evaluation of Lexer.Next at the failing input: the braced repetition
with lower bound 2 and upper bound 1 is accepted as the token (n = 2, m = 1)
rather than rejected with the RepetitionForm error, although the bound check is
required by the claim, by the text of ErrRepetitionForm, and by the intent of
the test list of bad repetitions. -/
theorem repetition_m_below_n_accepted :
    nextTokenOf initLexState (codes (r"{2,1}")) =
      some { typ := .Repetition, token := codes (r"{2,1}"),
             formattedToken := codes (r"{2,1}"), n := 2, m := 1 } := by
  decide

/-- C7: the empty range fails with CharacterRangeEmpty; the inverted empty
range succeeds with inverted true and exactly the seeded useless control
characters as members; the inverted singleton range adds its member to that
seed; and the seed is exactly 0x00-0x08, 0x0B, 0x0C, 0x0E-0x1F and 0x7F
(tab, LF and CR excluded).  Fresh process state throughout. -/
theorem empty_and_inverted_range_seeding :
    lexNext initLexState (codes (r"[]")) = .error .CharacterRangeEmpty
    ∧ (nextTokenOf initLexState (codes (r"[^]"))).map
        (fun t => (t.charRangeInverted, t.charRange)) = some (true, uselessChars)
    ∧ (nextTokenOf initLexState (codes (r"[^A]"))).map
        (fun t => (t.charRangeInverted, t.charRange)) = some (true, uselessChars ++ [65])
    ∧ (∀ k, memb uselessChars k = true ↔
        (k ≤ 8 ∨ k = 11 ∨ k = 12 ∨ (14 ≤ k ∧ k ≤ 31) ∨ k = 127)) := by
  refine ⟨by rfl, by decide, by decide, ?_⟩
  intro k
  rw [memb_eq_true_iff]
  simp only [uselessChars, List.mem_cons, List.not_mem_nil, or_false]
  omega

/-- C10: counterexample to the exactly-one discriminator claim at the epsilon
terminal: the Terminal built by OfTerminalString from the empty string literal
reports neither IsString nor IsRange. -/
theorem terminal_epsilon_neither :
    Nodes.IsString (Nodes.OfTerminalString (codes (r"''")) []) = false
    ∧ Nodes.IsRange (Nodes.OfTerminalString (codes (r"''")) []) = false := by
  constructor
  · decide
  · decide

/-- C10 amended: a Terminal built from a nonempty string reports IsString and
not IsRange; one built from a nonempty range map reports IsRange and not
IsString; the epsilon Terminal built from the empty string literal reports
neither. -/
theorem terminal_discriminator :
    (∀ src s : List Nat, s ≠ [] →
        Nodes.IsString (Nodes.OfTerminalString src s) = true ∧
        Nodes.IsRange (Nodes.OfTerminalString src s) = false)
    ∧ (∀ src m : List Nat, m ≠ [] →
        Nodes.IsRange (Nodes.OfTerminalRange src m) = true ∧
        Nodes.IsString (Nodes.OfTerminalRange src m) = false)
    ∧ (Nodes.IsString (Nodes.OfTerminalString (codes (r"''")) []) = false ∧
       Nodes.IsRange (Nodes.OfTerminalString (codes (r"''")) []) = false) := by
  refine ⟨?_, ?_, by decide, by decide⟩
  · intro src s hs
    constructor
    · simp [Nodes.IsString, Nodes.OfTerminalString, Nodes.OfSourceNode, List.length_pos, hs]
    · simp [Nodes.IsRange, Nodes.OfTerminalString, Nodes.OfSourceNode]
  · intro src m hm
    constructor
    · simp [Nodes.IsRange, Nodes.OfTerminalRange, Nodes.OfSourceNode, List.length_pos, hm]
    · simp [Nodes.IsString, Nodes.OfTerminalRange, Nodes.OfSourceNode]

/-- C10 witness: the amended discriminator theorem applied to a concrete
nonempty terminal string. -/
theorem terminal_discriminator_witness :
    Nodes.IsString (Nodes.OfTerminalString (codes (r"'a'")) [97]) = true ∧
    Nodes.IsRange (Nodes.OfTerminalString (codes (r"'a'")) [97]) = false :=
  terminal_discriminator.1 (codes (r"'a'")) [97] (by decide)

/-- C4: counterexample.  The single-line comment terminator is consumed, not
left in the input: lexing the comment out of slash-slash-x-LF-A leaves exactly
the character A.  And the multi-line input slash-star-x-star-star-slash does
not lex to a Comment token at all: it fails with UnexpectedEOF. -/
theorem comment_eol_consumed_counterexample :
    nextRestOf initLexState (codes (r"//x") ++ 10 :: codes (r"A")) = some (codes (r"A"))
    ∧ lexNext initLexState (codes (r"/*x**/")) = .error .UnexpectedEOF := by
  constructor
  · decide
  · rfl

/-- C5: counterexample.  A dash does not continue an identifier: lexing the
input a-b-space yields the identifier token consisting of the single letter a,
with the dash pushed back as the start of the remaining input. -/
theorem identifier_dash_counterexample :
    nextTokenOf initLexState (codes (r"a-b ")) =
      some { typ := .Identifier, token := [97], formattedToken := [97] }
    ∧ nextRestOf initLexState (codes (r"a-b ")) = some (codes (r"-b ")) := by
  constructor
  · decide
  · decide

/-- C8: counterexample to the reported-position part.  The lexical errors of
the embedded lexer are bare kinds, exactly as the Go source panics with bare
message constants: the unterminated string starting at column 1 and the same
unterminated string reached after an identifier and a space produce identical
error values, so no position just past the last character is reported. -/
theorem eof_error_carries_no_position :
    lexNext initLexState (codes (r"'abc")) = .error .UnexpectedEOF
    ∧ nextRestOf initLexState (codes (r"xy 'abc")) = some (codes (r" 'abc"))
    ∧ lexNext initLexState (codes (r" 'abc")) = .error .UnexpectedEOF := by
  refine ⟨by rfl, by decide, by rfl⟩

theorem commentLoop1_scan (xs : List Nat) :
    ∀ (tok ftok : List Nat) (eol : Nat) (ys : List Nat),
      (∀ x ∈ xs, ¬(x = 13 ∨ x = 10)) → (eol = 13 ∨ eol = 10) →
      commentLoop 1 tok ftok (xs ++ eol :: ys) =
        .ok ({ typ := .Comment, token := tok ++ xs, formattedToken := ftok ++ xs }, ys) := by
  induction xs with
  | nil =>
    intro tok ftok eol ys _ heol
    simp [commentLoop, heol]
  | cons x xs ih =>
    intro tok ftok eol ys hxs heol
    have hx : ¬(x = 13 ∨ x = 10) := hxs x (by simp)
    rw [List.cons_append, commentLoop]
    simp only [if_neg hx]
    rw [ih (tok ++ [x]) (ftok ++ [x]) eol ys (fun y hy => hxs y (by simp [hy])) heol]
    simp

/-- C4 amended: a single-line comment runs from the double slash to the end of
line, and the terminating EOL character IS consumed: it is neither part of the
token text nor pushed back.  A multi-line comment of the shape slash star x
star slash lexes as one Comment token, after which end of input yields the
EndOfInput token; but a star immediately preceding the closing star-slash
defeats termination, so slash star x star star slash fails with UnexpectedEOF
instead of lexing as a Comment token. -/
theorem comment_extent :
    (∀ (xs : List Nat) (eol : Nat) (ys : List Nat),
        (∀ x ∈ xs, ¬(x = 13 ∨ x = 10)) → (eol = 13 ∨ eol = 10) →
        lexNext initLexState (47 :: 47 :: (xs ++ eol :: ys)) =
          .ok ({ typ := .Comment, token := xs, formattedToken := xs }, ys, initLexState))
    ∧ lexNext initLexState (codes (r"/*x*/")) =
        .ok ({ typ := .Comment, token := [120], formattedToken := [120] }, [], initLexState)
    ∧ lexNext initLexState [] =
        .ok ({ typ := .EOF, token := [], formattedToken := [] }, [], initLexState)
    ∧ lexNext initLexState (codes (r"/*x**/")) = .error .UnexpectedEOF := by
  refine ⟨?_, by rfl, by rfl, by rfl⟩
  intro xs eol ys hxs heol
  rw [show lexNext initLexState (47 :: 47 :: (xs ++ eol :: ys)) =
        withSt initLexState (commentLoop 1 [] [] (xs ++ eol :: ys)) from rfl]
  rw [commentLoop1_scan xs [] [] eol ys hxs heol]
  rfl

/-- C4 witness: the general single-line clause of the amended comment theorem
instantiated at the comment body x with an LF terminator and a following A. -/
theorem comment_extent_witness :
    lexNext initLexState (47 :: 47 :: ([120] ++ 10 :: [65])) =
      .ok ({ typ := .Comment, token := [120], formattedToken := [120] }, [65], initLexState) :=
  comment_extent.1 [120] 10 [65] (by decide) (by decide)

theorem identLoop_scan (xs : List Nat) :
    ∀ (tok ftok : List Nat) (d : Nat) (ys : List Nat),
      (∀ x ∈ xs, isIdentTail x = true) → isIdentTail d = false →
      identLoop tok ftok (xs ++ d :: ys) =
        .ok ({ typ := .Identifier, token := tok ++ xs, formattedToken := ftok ++ xs },
             d :: ys) := by
  induction xs with
  | nil =>
    intro tok ftok d ys _ hd
    simp [identLoop, hd]
  | cons x xs ih =>
    intro tok ftok d ys hxs hd
    have hx : isIdentTail x = true := hxs x (by simp)
    rw [List.cons_append, identLoop]
    simp only [hx, if_true]
    rw [ih (tok ++ [x]) (ftok ++ [x]) d ys (fun y hy => hxs y (by simp [hy])) hd]
    simp

/-- C5 amended: an Identifier token is a first character in A-Z or a-z followed
by zero or more characters in A-Z, a-z, 0-9 or underscore; lexing stops at the
first character outside that set, which is pushed back so it starts the next
token.  A dash is NOT an identifier continuation character: it ends the
identifier and is pushed back. -/
theorem identifier_token_extent (c : Nat) (xs : List Nat) (d : Nat) (ys : List Nat)
    (hc : (65 ≤ c ∧ c ≤ 90) ∨ (97 ≤ c ∧ c ≤ 122))
    (hxs : ∀ x ∈ xs, isIdentTail x = true)
    (hd : isIdentTail d = false) :
    lexNext initLexState (c :: (xs ++ d :: ys)) =
      .ok ({ typ := .Identifier, token := c :: xs, formattedToken := c :: xs },
           d :: ys, initLexState) := by
  have hws : ¬(c = 32 ∨ c = 9 ∨ c = 13 ∨ c = 10) := by omega
  rw [lexNext, lexNextAux]
  rw [if_neg hws]
  rw [startToken.eq_def, if_pos hc]
  rw [identLoop_scan xs [c] [c] d ys hxs hd]
  simp [withSt]

/-- C5 witness: the amended identifier theorem instantiated at the input a b
semicolon, whose dash-free identifier is the two letters. -/
theorem identifier_token_extent_witness :
    lexNext initLexState (97 :: ([98] ++ 59 :: [])) =
      .ok ({ typ := .Identifier, token := [97, 98], formattedToken := [97, 98] },
           [59], initLexState) :=
  identifier_token_extent 97 [98] 59 [] (by decide) (by decide) (by decide)

/-- C6: dash policy inside a bracket range, from a fresh process state.
A range c1 dash c2 over ordinary characters (no backslash, closing bracket or
leading hat) adds exactly the inclusive codepoint interval c1..c2 and fails
with CharacterRangeOutOfOrder exactly when c1 exceeds c2; setRange membership
is the inclusive interval; the input A dash C lexes to the non-inverted member
set with exactly A, B and C; and a dash is literal when it is the first content
character, the last character before the closing bracket, the first content
character after a leading hat, or immediately follows a completed range, as the
concrete member sets show (a character after a completed range starts fresh, so
in A-C-E both the dash and E are literal members). -/
theorem character_range_dash_policy :
    (∀ c1 c2 : Nat, ¬(c1 = 92 ∨ c1 = 93 ∨ c1 = 94) → ¬(c2 = 92 ∨ c2 = 93) → c1 ≤ c2 →
        lexNext initLexState [91, c1, 45, c2, 93] =
          .ok ({ typ := .CharacterRange, token := [91, c1, 45, c2, 93],
                 formattedToken := [91, c1, 45, c2, 93], charRangeInverted := false,
                 charRange := setRange [] c1 c2 }, [], initLexState))
    ∧ (∀ c1 c2 : Nat, ¬(c1 = 92 ∨ c1 = 93 ∨ c1 = 94) → ¬(c2 = 92 ∨ c2 = 93) → c2 < c1 →
        lexNext initLexState [91, c1, 45, c2, 93] = .error .CharacterRangeOutOfOrder)
    ∧ (∀ lo hi k : Nat, memb (setRange [] lo hi) k = true ↔ (lo ≤ k ∧ k ≤ hi))
    ∧ nextTokenOf initLexState (codes (r"[A-C]")) =
        some { typ := .CharacterRange, token := codes (r"[A-C]"),
               formattedToken := codes (r"[A-C]"), charRange := [65, 66, 67] }
    ∧ (nextTokenOf initLexState (codes (r"[-]"))).map Token.charRange = some [45]
    ∧ (nextTokenOf initLexState (codes (r"[-A]"))).map Token.charRange = some [45, 65]
    ∧ (nextTokenOf initLexState (codes (r"[A-]"))).map Token.charRange = some [65, 45]
    ∧ (nextTokenOf initLexState (codes (r"[A-C-]"))).map Token.charRange =
        some [65, 66, 67, 45]
    ∧ (nextTokenOf initLexState (codes (r"[A-C-E]"))).map Token.charRange =
        some [65, 66, 67, 45, 69]
    ∧ (nextTokenOf initLexState (codes (r"[^-]"))).map
        (fun t => (t.charRangeInverted, memb t.charRange 45)) = some (true, true) := by
  refine ⟨?_, ?_, ?_, by decide, by decide, by decide, by decide, by decide, by decide,
    by decide⟩
  · intro c1 c2 h1 h2 hle
    obtain ⟨h92, h93, h94⟩ : c1 ≠ 92 ∧ c1 ≠ 93 ∧ c1 ≠ 94 := by omega
    obtain ⟨k92, k93⟩ : c2 ≠ 92 ∧ c2 ≠ 93 := by omega
    have hgt : ¬ c1 > c2 := by omega
    have main : rangeLoop initLexState.useless 0 false 0 [] [91] [91] [c1, 45, c2, 93] =
        .ok ({ typ := .CharacterRange, token := [91, c1, 45, c2, 93],
               formattedToken := [91, c1, 45, c2, 93], charRangeInverted := false,
               charRange := setRange [] c1 c2 }, [], initLexState.useless) := by
      have hd0 : rangeDispatch initLexState.useless 0 false 0 [] c1 false =
          .cont 1 false c1 [] := by
        simp [rangeDispatch, h94, h93]
      have hd2 : rangeDispatch initLexState.useless 2 false c1 [] c2 false =
          .cont 3 false c1 (setRange [] c1 c2) := by
        simp [rangeDispatch, k93, hgt]
      rw [rangeLoop, if_neg h92, hd0]
      show rangeLoop initLexState.useless 2 false c1 [] [91, c1, 45] [91, c1, 45] [c2, 93] = _
      rw [rangeLoop, if_neg k92, hd2]
      rfl
    rw [show lexNext initLexState [91, c1, 45, c2, 93] =
          (match rangeLoop initLexState.useless 0 false 0 [] [91] [91] [c1, 45, c2, 93] with
           | .error e => .error e
           | .ok (t, r, g2) => .ok (t, r, { initLexState with useless := g2 })) from rfl]
    rw [main]
  · intro c1 c2 h1 h2 hlt
    obtain ⟨h92, h93, h94⟩ : c1 ≠ 92 ∧ c1 ≠ 93 ∧ c1 ≠ 94 := by omega
    obtain ⟨k92, k93⟩ : c2 ≠ 92 ∧ c2 ≠ 93 := by omega
    have hgt : c1 > c2 := by omega
    have main : rangeLoop initLexState.useless 0 false 0 [] [91] [91] [c1, 45, c2, 93] =
        .error .CharacterRangeOutOfOrder := by
      have hd0 : rangeDispatch initLexState.useless 0 false 0 [] c1 false =
          .cont 1 false c1 [] := by
        simp [rangeDispatch, h94, h93]
      have hd2 : rangeDispatch initLexState.useless 2 false c1 [] c2 false =
          .err .CharacterRangeOutOfOrder := by
        simp [rangeDispatch, k93, hgt]
      rw [rangeLoop, if_neg h92, hd0]
      show rangeLoop initLexState.useless 2 false c1 [] [91, c1, 45] [91, c1, 45] [c2, 93] = _
      rw [rangeLoop, if_neg k92, hd2]
    rw [show lexNext initLexState [91, c1, 45, c2, 93] =
          (match rangeLoop initLexState.useless 0 false 0 [] [91] [91] [c1, 45, c2, 93] with
           | .error e => .error e
           | .ok (t, r, g2) => .ok (t, r, { initLexState with useless := g2 })) from rfl]
    rw [main]
  · intro lo hi k
    rw [setRange_memb]
    simp [memb]

/-- C6 witness: the general interval clause of the dash-policy theorem
instantiated at the codepoints of A and C. -/
theorem character_range_dash_policy_witness :
    lexNext initLexState [91, 65, 45, 67, 93] =
      .ok ({ typ := .CharacterRange, token := [91, 65, 45, 67, 93],
             formattedToken := [91, 65, 45, 67, 93], charRangeInverted := false,
             charRange := setRange [] 65 67 }, [], initLexState) :=
  character_range_dash_policy.1 65 67 (by decide) (by decide) (by decide)

/-- C9: counterexample.  First, an expression of a 40-character and a
60-character alternative renders to 103 columns on a single line with the
same-line separator: crossing the 80-column threshold while rendering the final
item does not switch to the multi-line form.  Second, when the switch does
happen, the textual replacement also rewrites the separator-shaped text inside
a quoted terminal alternative, not only the separators. -/
theorem expression_wrap_counterexample :
    (Pretty.Expression.render
        { items := [Pretty.nameItem (List.replicate 40 97),
                    Pretty.nameItem (List.replicate 60 98)] }
      = List.replicate 40 97 ++ Pretty.sameLineSeparator ++ List.replicate 60 98)
    ∧ 80 ≤ (Pretty.Expression.render
        { items := [Pretty.nameItem (List.replicate 40 97),
                    Pretty.nameItem (List.replicate 60 98)] }).length
    ∧ (Pretty.Expression.render
        { items := [Pretty.nameItem (List.replicate 70 97),
                    Pretty.strTermItem (codes (r"a | b")),
                    Pretty.nameItem (List.replicate 4 99)] }
      = List.replicate 70 97 ++ Pretty.nextLineSeparator
          ++ [34, 97] ++ Pretty.nextLineSeparator ++ [98, 34]
          ++ Pretty.nextLineSeparator ++ List.replicate 4 99) := by
  refine ⟨by decide, by decide, by decide⟩

theorem nameItem_render (a : List Nat) :
    Pretty.ExpressionItem.render (Pretty.nameItem a) = a := by
  simp [Pretty.ExpressionItem.render, Pretty.nameItem, Pretty.joinSpace,
    Pretty.ListItem.render, Pretty.Terminal.render, Pretty.lexTypeStr]

/-- C9 amended: alternatives are joined by the same-line separator as long as
the accumulated width, measured immediately after each separator write, stays
below 80 columns; when that measurement reaches 80 the renderer rewrites every
occurrence of the same-line separator in the accumulated text (a textual
ReplaceAll, so text inside an alternative shaped like the separator is also
rewritten) to the newline plus indented-bar form and continues multi-line, as
the three-alternative rendering shows including the separator emitted before
the threshold was crossed; the width check happens only at separator writes, so
crossing 80 while rendering the final item leaves the output on one line. -/
theorem expression_wrap_behavior :
    (∀ a b : List Nat, a.length + 3 < 80 →
        Pretty.Expression.render { items := [Pretty.nameItem a, Pretty.nameItem b] }
          = a ++ Pretty.sameLineSeparator ++ b)
    ∧ Pretty.Expression.render
        { items := [Pretty.nameItem (List.replicate 40 97),
                    Pretty.nameItem (List.replicate 45 98),
                    Pretty.nameItem (List.replicate 5 99)] }
      = List.replicate 40 97 ++ Pretty.nextLineSeparator ++ List.replicate 45 98
          ++ Pretty.nextLineSeparator ++ List.replicate 5 99 := by
  refine ⟨?_, by decide⟩
  intro a b h
  have hlen : ¬ 80 ≤ (a ++ Pretty.sameLineSeparator).length := by
    simp [Pretty.sameLineSeparator]
    omega
  simp only [Pretty.Expression.render, List.map, nameItem_render]
  rw [Pretty.exprLoop]
  simp only [if_pos rfl]
  rw [if_neg hlen]
  rw [Pretty.exprLoop]
  simp [List.append_assoc]

/-- C9 witness: the one-line clause of the amended wrap theorem instantiated at
two one-character alternatives. -/
theorem expression_wrap_behavior_witness :
    Pretty.Expression.render { items := [Pretty.nameItem [97], Pretty.nameItem [98]] }
      = [97] ++ Pretty.sameLineSeparator ++ [98] :=
  expression_wrap_behavior.1 [97] [98] (by decide)

/-- C3: verbatim round trip.  Whenever the (spec-modelled) terminal parser
accepts a source text, the Terminal it builds stores that exact text, and the
verbatim rendering (the String method of SourceNode, an unmodified field read)
returns it byte for byte, independent of the decoded payload. -/
theorem parseTerminal_verbatim (s : List Nat) (t : Nodes.Terminal)
    (h : parseTerminal s = some t) :
    Nodes.verbatim t.sourceNode = s := by
  unfold parseTerminal at h
  split at h
  · exact absurd h (by simp)
  · split at h
    · obtain rfl : Nodes.OfTerminalString s _ = t := Option.some.inj h
      rfl
    · split at h
      · split at h
        · obtain rfl : Nodes.OfTerminalRange s _ = t := Option.some.inj h
          rfl
        · exact absurd h (by simp)
      · exact absurd h (by simp)

/-- C3 witness: the verbatim theorem applied to the concrete single-quoted
source text of the two-letter terminal. -/
theorem parseTerminal_verbatim_witness :
    Nodes.verbatim (Nodes.OfTerminalString (codes (r"'ab'")) [97, 98]).sourceNode
      = codes (r"'ab'") :=
  parseTerminal_verbatim (codes (r"'ab'")) (Nodes.OfTerminalString (codes (r"'ab'")) [97, 98])
    (by decide)

theorem identLoop_ok_typ :
    ∀ (input tok ftok : List Nat) (t : Token) (rest : List Nat),
      identLoop tok ftok input = .ok (t, rest) → t.typ = .Identifier := by
  intro input
  induction input with
  | nil => intro tok ftok t rest h; simp [identLoop] at h
  | cons c cs ih =>
    intro tok ftok t rest h
    rw [identLoop] at h
    split at h
    · exact ih _ _ _ _ h
    · simp only [Except.ok.injEq, Prod.mk.injEq] at h
      obtain ⟨ht, -⟩ := h
      subst ht
      rfl

theorem commentLoop_ok_typ :
    ∀ (input : List Nat) (cs : Nat) (tok ftok : List Nat) (t : Token) (rest : List Nat),
      commentLoop cs tok ftok input = .ok (t, rest) → t.typ = .Comment := by
  intro input
  induction input with
  | nil => intro cs tok ftok t rest h; simp [commentLoop] at h
  | cons c cs2 ih =>
    intro cs tok ftok t rest h
    rw [commentLoop.eq_def] at h
    simp only [] at h
    split at h <;> (try split at h) <;> (try split at h) <;>
      first
        | exact ih _ _ _ _ _ h
        | (simp only [Except.ok.injEq, Prod.mk.injEq] at h
           obtain ⟨ht, -⟩ := h
           subst ht
           rfl)
        | simp at h

theorem stringLoop_ok_typ :
    ∀ (n : Nat) (input : List Nat), input.length ≤ n →
      ∀ (dq : Bool) (tok ftok : List Nat) (t : Token) (rest : List Nat),
        stringLoop dq tok ftok input = .ok (t, rest) → t.typ = .StringLit := by
  intro n
  induction n with
  | zero =>
    intro input hlen dq tok ftok t rest h
    have : input = [] := by
      cases input
      · rfl
      · simp at hlen
    subst this
    simp [stringLoop] at h
  | succ n ih =>
    intro input hlen dq tok ftok t rest h
    rw [stringLoop.eq_def] at h
    split at h
    · simp at h
    · rename_i c rest2
      split at h
      · split at h
        · simp at h
        · split at h
          · simp at h
          · refine ih _ ?_ _ _ _ _ _ h
            simp at hlen ⊢
            omega
      · split at h
        · simp only [Except.ok.injEq, Prod.mk.injEq] at h
          obtain ⟨ht, -⟩ := h
          subst ht
          rfl
        · refine ih _ ?_ _ _ _ _ _ h
          simp at hlen ⊢
          omega

theorem rangeLoop_ok_typ :
    ∀ (n : Nat) (input : List Nat), input.length ≤ n →
      ∀ (g : List Nat) (rs : Nat) (inv : Bool) (rb : Nat) (chars tok ftok : List Nat)
        (t : Token) (rest g2 : List Nat),
        rangeLoop g rs inv rb chars tok ftok input = .ok (t, rest, g2) →
        t.typ = .CharacterRange := by
  intro n
  induction n with
  | zero =>
    intro input hlen g rs inv rb chars tok ftok t rest g2 h
    have : input = [] := by
      cases input
      · rfl
      · simp at hlen
    subst this
    simp [rangeLoop] at h
  | succ n ih =>
    intro input hlen g rs inv rb chars tok ftok t rest g2 h
    rw [rangeLoop.eq_def] at h
    split at h
    · simp at h
    · rename_i c rest2
      split at h
      · split at h
        · simp at h
        · split at h
          · simp at h
          · split at h
            · simp at h
            · simp only [Except.ok.injEq, Prod.mk.injEq] at h
              obtain ⟨ht, -⟩ := h
              subst ht
              rfl
            · refine ih _ ?_ _ _ _ _ _ _ _ _ _ _ h
              simp at hlen ⊢
              omega
      · split at h
        · simp at h
        · simp only [Except.ok.injEq, Prod.mk.injEq] at h
          obtain ⟨ht, -⟩ := h
          subst ht
          rfl
        · refine ih _ ?_ _ _ _ _ _ _ _ _ _ _ h
          simp at hlen ⊢
          omega

theorem repLoop_ok_typ :
    ∀ (input : List Nat) (readM : Bool) (n m : Int) (tok ftok : List Nat)
      (t : Token) (rest : List Nat),
      repLoop readM n m tok ftok input = .ok (t, rest) → t.typ = .Repetition := by
  intro input
  induction input with
  | nil => intro readM n m tok ftok t rest h; simp [repLoop] at h
  | cons c cs ih =>
    intro readM n m tok ftok t rest h
    rw [repLoop.eq_def] at h
    simp only [] at h
    split at h <;> repeat' split at h
    all_goals
      first
        | exact ih _ _ _ _ _ _ _ h
        | (simp only [Except.ok.injEq, Prod.mk.injEq] at h
           obtain ⟨ht, -⟩ := h
           subst ht
           rfl)
        | simp at h

theorem optionTypeAt_ne_eof : ∀ i : Nat, optionTypeAt i ≠ .EOF := by
  intro i
  rcases i with _|_|_|_|_|_|_|i <;> simp [optionTypeAt]

theorem optionLoop_ok_typ :
    ∀ (input tok ftok : List Nat) (t : Token) (rest : List Nat),
      optionLoop tok ftok input = .ok (t, rest) → t.typ ≠ .EOF := by
  intro input
  induction input with
  | nil => intro tok ftok t rest h; simp [optionLoop] at h
  | cons c cs ih =>
    intro tok ftok t rest h
    rw [optionLoop.eq_def] at h
    simp only [] at h
    split at h
    · exact ih _ _ _ _ h
    · split at h
      · simp only [Except.ok.injEq, Prod.mk.injEq] at h
        obtain ⟨ht, -⟩ := h
        subst ht
        exact optionTypeAt_ne_eof _
      · simp at h

theorem withSt_ok {st : LexState} {res : Except LexErr (Token × List Nat)} {t : Token}
    {r : List Nat} {st2 : LexState} (h : withSt st res = .ok (t, r, st2)) :
    res = .ok (t, r) := by
  match res with
  | .error e => simp [withSt] at h
  | .ok (t0, r0) =>
    simp only [withSt, Except.ok.injEq, Prod.mk.injEq] at h
    obtain ⟨h1, h2, -⟩ := h
    rw [h1, h2]

theorem startToken_ok_ne_eof (st : LexState) (c : Nat) (rest : List Nat) (t : Token)
    (r : List Nat) (st2 : LexState) (h : startToken st c rest = .ok (t, r, st2)) :
    t.typ ≠ .EOF := by
  rw [startToken.eq_def] at h
  by_cases h1 : (65 ≤ c ∧ c ≤ 90) ∨ (97 ≤ c ∧ c ≤ 122)
  · rw [if_pos h1] at h
    rw [identLoop_ok_typ _ _ _ _ _ (withSt_ok h)]
    decide
  rw [if_neg h1] at h
  by_cases h2 : c = 47
  · rw [if_pos h2] at h
    rw [commentLoop_ok_typ _ _ _ _ _ _ (withSt_ok h)]
    decide
  rw [if_neg h2] at h
  by_cases h3 : c = 34
  · rw [if_pos h3] at h
    rw [stringLoop_ok_typ _ _ (le_refl _) _ _ _ _ _ (withSt_ok h)]
    decide
  rw [if_neg h3] at h
  by_cases h4 : c = 39
  · rw [if_pos h4] at h
    rw [stringLoop_ok_typ _ _ (le_refl _) _ _ _ _ _ (withSt_ok h)]
    decide
  rw [if_neg h4] at h
  by_cases h5 : c = 91
  · rw [if_pos h5] at h
    split at h
    · simp at h
    · rename_i heq
      simp only [Except.ok.injEq, Prod.mk.injEq] at h
      obtain ⟨ht, -⟩ := h
      subst ht
      rw [rangeLoop_ok_typ _ _ (le_refl _) _ _ _ _ _ _ _ _ _ _ heq]
      decide
  rw [if_neg h5] at h
  by_cases h6 : c = 123
  · rw [if_pos h6] at h
    rw [repLoop_ok_typ _ _ _ _ _ _ _ _ (withSt_ok h)]
    decide
  rw [if_neg h6] at h
  by_cases h7 : c = 63
  · rw [if_pos h7] at h
    simp only [Except.ok.injEq, Prod.mk.injEq] at h
    obtain ⟨ht, -⟩ := h
    subst ht
    decide
  rw [if_neg h7] at h
  by_cases h8 : c = 42
  · rw [if_pos h8] at h
    simp only [Except.ok.injEq, Prod.mk.injEq] at h
    obtain ⟨ht, -⟩ := h
    subst ht
    decide
  rw [if_neg h8] at h
  by_cases h9 : c = 43
  · rw [if_pos h9] at h
    simp only [Except.ok.injEq, Prod.mk.injEq] at h
    obtain ⟨ht, -⟩ := h
    subst ht
    decide
  rw [if_neg h9] at h
  by_cases h10 : c = 58
  · rw [if_pos h10] at h
    exact optionLoop_ok_typ _ _ _ _ _ (withSt_ok h)
  rw [if_neg h10] at h
  by_cases h11 : c = 94
  · rw [if_pos h11] at h
    simp only [Except.ok.injEq, Prod.mk.injEq] at h
    obtain ⟨ht, -⟩ := h
    subst ht
    decide
  rw [if_neg h11] at h
  by_cases h12 : c = 40
  · rw [if_pos h12] at h
    simp only [Except.ok.injEq, Prod.mk.injEq] at h
    obtain ⟨ht, -⟩ := h
    subst ht
    decide
  rw [if_neg h12] at h
  by_cases h13 : c = 41
  · rw [if_pos h13] at h
    simp only [Except.ok.injEq, Prod.mk.injEq] at h
    obtain ⟨ht, -⟩ := h
    subst ht
    decide
  rw [if_neg h13] at h
  by_cases h14 : c = 124
  · rw [if_pos h14] at h
    simp only [Except.ok.injEq, Prod.mk.injEq] at h
    obtain ⟨ht, -⟩ := h
    subst ht
    decide
  rw [if_neg h14] at h
  by_cases h15 : c = 44
  · rw [if_pos h15] at h
    simp only [Except.ok.injEq, Prod.mk.injEq] at h
    obtain ⟨ht, -⟩ := h
    subst ht
    decide
  rw [if_neg h15] at h
  by_cases h16 : c = 61
  · rw [if_pos h16] at h
    split at h
    · simp at h
    · split at h
      · simp only [Except.ok.injEq, Prod.mk.injEq] at h
        obtain ⟨ht, -⟩ := h
        subst ht
        decide
      · simp only [Except.ok.injEq, Prod.mk.injEq] at h
        obtain ⟨ht, -⟩ := h
        subst ht
        decide
  rw [if_neg h16] at h
  by_cases h17 : c = 59
  · rw [if_pos h17] at h
    simp only [Except.ok.injEq, Prod.mk.injEq] at h
    obtain ⟨ht, -⟩ := h
    subst ht
    decide
  rw [if_neg h17] at h
  simp at h

theorem lexNextAux_eof_ws :
    ∀ (input : List Nat) (st : LexState) (lastCR : Bool) (t : Token) (rest : List Nat)
      (st2 : LexState),
      lexNextAux st lastCR input = .ok (t, rest, st2) → t.typ = .EOF →
      input.all isWS = true := by
  intro input
  induction input with
  | nil => intro st lastCR t rest st2 h htyp; rfl
  | cons c cs ih =>
    intro st lastCR t rest st2 h htyp
    rw [lexNextAux] at h
    split at h
    · rename_i hc
      have hcs : cs.all isWS = true := by
        split at h
        · exact ih _ _ _ _ _ h htyp
        · split at h
          · split at h
            · exact ih _ _ _ _ _ h htyp
            · exact ih _ _ _ _ _ h htyp
          · exact ih _ _ _ _ _ h htyp
      simp only [List.all_cons, hcs, Bool.and_true]
      simp [isWS]
      omega
    · exact absurd htyp (startToken_ok_ne_eof _ _ _ _ _ _ h)

theorem lexNextAux_all_ws :
    ∀ (input : List Nat) (st : LexState) (lastCR : Bool), input.all isWS = true →
      (lexNextAux st lastCR input).toOption.map (fun p => (p.1, p.2.1)) =
        some ({ typ := .EOF, token := [], formattedToken := [] }, []) := by
  intro input
  induction input with
  | nil => intro st lastCR h; rfl
  | cons c cs ih =>
    intro st lastCR h
    simp only [List.all_cons, Bool.and_eq_true] at h
    obtain ⟨hc, hcs⟩ := h
    have hc2 : c = 32 ∨ c = 9 ∨ c = 13 ∨ c = 10 := by
      simpa [isWS] using hc
    rw [lexNextAux]
    rw [if_pos hc2]
    repeat' split
    all_goals exact ih _ _ hcs

/-- C8 amended: Lexer.Next yields the EndOfInput token exactly when end of
input is reached between tokens: a whitespace-only (possibly empty) input
yields the EOF token, a call yielding an EOF-typed token had a whitespace-only
input, and every mid-token state (identifier, comment, string, character
range, repetition, option) fails with UnexpectedEOF when the input ends; in
particular the unterminated string quote-a-b-c fails with UnexpectedEOF.  The
error value is a bare kind: the lexer carries no position. -/
theorem eof_between_tokens :
    (∀ st : LexState, lexNext st [] =
        .ok ({ typ := .EOF, token := [], formattedToken := [] }, [], st))
    ∧ (∀ (st : LexState) (input : List Nat), input.all isWS = true →
        (lexNext st input).toOption.map (fun p => (p.1, p.2.1)) =
          some ({ typ := .EOF, token := [], formattedToken := [] }, []))
    ∧ (∀ (st : LexState) (input : List Nat) (t : Token) (rest : List Nat) (st2 : LexState),
        lexNext st input = .ok (t, rest, st2) → t.typ = .EOF → input.all isWS = true)
    ∧ (∀ tok ftok : List Nat, identLoop tok ftok [] = .error .UnexpectedEOF)
    ∧ (∀ (cs : Nat) (tok ftok : List Nat), commentLoop cs tok ftok [] = .error .UnexpectedEOF)
    ∧ (∀ (dq : Bool) (tok ftok : List Nat), stringLoop dq tok ftok [] = .error .UnexpectedEOF)
    ∧ (∀ (g : List Nat) (rs : Nat) (inv : Bool) (rb : Nat) (chars tok ftok : List Nat),
        rangeLoop g rs inv rb chars tok ftok [] = .error .UnexpectedEOF)
    ∧ (∀ (readM : Bool) (n m : Int) (tok ftok : List Nat),
        repLoop readM n m tok ftok [] = .error .UnexpectedEOF)
    ∧ (∀ tok ftok : List Nat, optionLoop tok ftok [] = .error .UnexpectedEOF)
    ∧ lexNext initLexState (codes (r"'abc")) = .error .UnexpectedEOF := by
  refine ⟨fun st => rfl, ?_, ?_, fun tok ftok => rfl, fun cs tok ftok => rfl,
    fun dq tok ftok => rfl, fun g rs inv rb chars tok ftok => rfl,
    fun readM n m tok ftok => rfl, fun tok ftok => rfl, by rfl⟩
  · intro st input h
    exact lexNextAux_all_ws input st false h
  · intro st input t rest st2 h htyp
    exact lexNextAux_eof_ws input st false t rest st2 h htyp

/-- C8 witness: the whitespace clause of the EOF theorem instantiated at a
space-and-tab input. -/
theorem eof_between_tokens_witness :
    (lexNext initLexState [32, 9]).toOption.map (fun p => (p.1, p.2.1)) =
      some ({ typ := .EOF, token := [], formattedToken := [] }, []) :=
  eof_between_tokens.2.1 initLexState [32, 9] (by decide)

end GoParse
